import Mathlib

/-
  Verification of the campaign dispatch pipeline of app.py
  (gvaldezr/flask-whatsapp-sender).

  The embedding models:
  * the Python text primitives the code relies on
    (`str.splitlines`, universal-newline text-mode reads, `csv.reader`
    with the default dialect, `re.sub` with the ANSI-escape pattern,
    `str.split`, `str.strip`, `str.replace`);
  * `clean_twilio_error` (app.py lines 178-187);
  * the Celery task `process_campaign_task` (app.py lines 116-176) as a
    function from an initial store / filesystem / provider oracle to a
    trace of observable events (commits, file reads, file removal, send
    attempts), together with the durable store obtained by replaying the
    committed events;
  * the recipient count computed at intake by `create_campaign`
    (app.py line 421: `len(csv_content.splitlines())`).
-/

namespace WhatsappSender

/-! Python text primitives -/

/-- The ASCII escape character `\x1B`. -/
def escChar : Char := Char.ofNat 27

/-- Characters accepted by the single-character alternative `[@-Z\\-_]`
of the ANSI pattern in `clean_twilio_error`. -/
def isAnsiSingleFinal (c : Char) : Bool :=
  (decide (0x40 ≤ c.toNat) && decide (c.toNat ≤ 0x5A)) ||
  (decide (0x5C ≤ c.toNat) && decide (c.toNat ≤ 0x5F))

/-- CSI parameter bytes, the class 0x30 to 0x3F of the ANSI pattern. -/
def isCsiParamByte (c : Char) : Bool :=
  decide (0x30 ≤ c.toNat) && decide (c.toNat ≤ 0x3F)

/-- CSI intermediate bytes, the class 0x20 to 0x2F of the ANSI pattern. -/
def isCsiIntermediateByte (c : Char) : Bool :=
  decide (0x20 ≤ c.toNat) && decide (c.toNat ≤ 0x2F)

/-- CSI final bytes, the class 0x40 to 0x7E of the ANSI pattern. -/
def isCsiFinalByte (c : Char) : Bool :=
  decide (0x40 ≤ c.toNat) && decide (c.toNat ≤ 0x7E)

/-- Match the CSI body of the ANSI pattern (parameter bytes, then
intermediate bytes, then one final byte) at the head of `l`.  The three
byte classes are pairwise disjoint, so the greedy match of the Python
regex engine is the unique one.  Returns the remainder after the
match. -/
def csiSplit (l : List Char) : Option (List Char) :=
  match (l.dropWhile isCsiParamByte).dropWhile isCsiIntermediateByte with
  | [] => none
  | f :: rest => if isCsiFinalByte f then some rest else none

/-- Fuelled worker for the left-to-right pass of
`ansi_escape.sub('', error_string)` with the pattern of
`clean_twilio_error` (ESC followed either by one single-character
final or by a bracketed CSI body): the leftmost-match,
non-overlapping semantics of `re.sub`.  When no match starts at the
current position the scanner keeps the character and retries at the
next one.  Every step consumes at least one character, so any fuel of
at least the input length gives the untruncated result. -/
def ansiStripF : Nat → List Char → List Char
  | _, [] => []
  | 0, l => l
  | fuel + 1, c :: rest =>
    if c = escChar then
      match rest with
      | [] => [c]
      | d :: rest2 =>
        if isAnsiSingleFinal d then ansiStripF fuel rest2
        else if d = '[' then
          match csiSplit rest2 with
          | some rem => ansiStripF fuel rem
          | none => c :: ansiStripF fuel (d :: rest2)
        else c :: ansiStripF fuel (d :: rest2)
    else c :: ansiStripF fuel rest

/-- `ansi_escape.sub('', s)` of `clean_twilio_error`. -/
def ansiStrip (l : List Char) : List Char := ansiStripF l.length l


/-- Python whitespace for `str.strip()` (characters with the Unicode
whitespace property, as recognised by `str.isspace`). -/
def isPySpace (c : Char) : Bool :=
  let n := c.toNat
  n == 0x20 || n == 0x09 || n == 0x0A || n == 0x0D || n == 0x0B || n == 0x0C ||
  (decide (0x1C ≤ n) && decide (n ≤ 0x1F)) || n == 0x85 || n == 0xA0 ||
  n == 0x1680 || (decide (0x2000 ≤ n) && decide (n ≤ 0x200A)) || n == 0x2028 ||
  n == 0x2029 || n == 0x202F || n == 0x205F || n == 0x3000

/-- Python `str.strip()`: remove whitespace from both ends. -/
def pyStrip (l : List Char) : List Char :=
  List.rdropWhile isPySpace (List.dropWhile isPySpace l)

/-- Split at the first occurrence of `pat`: returns the part strictly
before the occurrence together with the part strictly after it, or
`none` when `pat` does not occur.  This is the elementary step behind
Python `str.split(sep)` (non-overlapping, leftmost-first). -/
def splitFirst (pat : List Char) : List Char → Option (List Char × List Char)
  | [] => if pat = [] then some ([], []) else none
  | c :: rest =>
    if pat.isPrefixOf (c :: rest) then some ([], List.drop pat.length (c :: rest))
    else
      match splitFirst pat rest with
      | some (b, a) => some (c :: b, a)
      | none => none

/-- Element `[1]` of Python `s.split(pat)` when `pat` occurs in `s`
(the text between the first and the second occurrence, or everything
after the first occurrence when it is the only one); `none` when `pat`
does not occur. -/
def splitIndex1 (pat l : List Char) : Option (List Char) :=
  match splitFirst pat l with
  | none => none
  | some (_, r1) =>
    some (match splitFirst pat r1 with
          | some (b2, _) => b2
          | none => r1)

/-- Element `[0]` of Python `s.split(pat)`: the text before the first
occurrence of `pat`, or all of `s` when `pat` does not occur. -/
def splitIndex0 (pat l : List Char) : List Char :=
  match splitFirst pat l with
  | some (b, _) => b
  | none => l

/-- Marker `"Twilio returned the following information:"`. -/
def twilioMarker : List Char := "Twilio returned the following information:".data

/-- Marker `"More information may be available here:"`. -/
def moreInfoMarker : List Char := "More information may be available here:".data

/-- `clean_twilio_error` (app.py lines 178-187): strip ANSI escape
sequences; if the boilerplate marker occurs, keep the `split(marker)[1]`
fragment, truncate it at the more-information marker, and trim it;
otherwise return the stripped string unchanged.  (`marker in s` is
modelled as `splitIndex1` finding an occurrence, which agrees with
Python's substring test.) -/
def clean_twilio_error (error_string : String) : String :=
  let clean_string := ansiStrip error_string.data
  match splitIndex1 twilioMarker clean_string with
  | some main_error => String.mk (pyStrip (splitIndex0 moreInfoMarker main_error))
  | none => String.mk clean_string

/-! Python `str.splitlines` (used by `create_campaign`, app.py line 421) -/

/-- Line-boundary characters of `str.splitlines`. -/
def isLineBoundary (c : Char) : Bool :=
  c == '\n' || c == '\r' || c.toNat == 0x0B || c.toNat == 0x0C ||
  c.toNat == 0x1C || c.toNat == 0x1D || c.toNat == 0x1E || c.toNat == 0x85 ||
  c.toNat == 0x2028 || c.toNat == 0x2029

/-- Worker of `pySplitlines`; `cur` is the current line, reversed.
A `\r` directly followed by `\n` counts as one boundary. -/
def splitlinesGo (cur : List Char) : List Char → List (List Char)
  | [] => [cur.reverse]
  | [c] => if isLineBoundary c then [cur.reverse] else [(c :: cur).reverse]
  | c :: d :: r =>
    if c = '\r' && d = '\n' then
      cur.reverse :: (if r.isEmpty then [] else splitlinesGo [] r)
    else if isLineBoundary c then
      cur.reverse :: splitlinesGo [] (d :: r)
    else splitlinesGo (c :: cur) (d :: r)

/-- Python `str.splitlines()`: split at line boundaries (with `\r\n`
counting as a single boundary), without a trailing empty line. -/
def pySplitlines (l : List Char) : List (List Char) :=
  if l.isEmpty then [] else splitlinesGo [] l

/-- `recipients_count` as computed by `create_campaign`
(app.py line 421): `len(csv_content.splitlines())`. -/
def intakeRecipientCount (csv_content : String) : Nat :=
  (pySplitlines csv_content.data).length

/-! Universal newlines: the dispatcher re-opens the stored file in text
mode, so `\r\n` and lone `\r` are translated to `\n` before
`csv.reader` sees the text. -/

/-- Universal-newline translation of Python text-mode reads: `\r\n`
and lone `\r` become `\n`. -/
def univNewlines : List Char → List Char
  | [] => []
  | [c] => if c = '\r' then ['\n'] else [c]
  | c :: d :: r =>
    if c = '\r' && d = '\n' then '\n' :: univNewlines r
    else if c = '\r' then '\n' :: univNewlines (d :: r)
    else c :: univNewlines (d :: r)

/-! `csv.reader` with the default dialect (delimiter `,`, quote `"`,
doubled-quote escaping, non-strict).  After universal-newline
translation the only record terminator is `\n`. -/

/-- Parser states of the `csv.reader` record scanner. -/
inductive CsvState
  | startRecord
  | startField
  | inField
  | inQuoted
  | quoteInQuoted
deriving DecidableEq

/-- Accumulator of the `csv.reader` scanner: parser state, current
field (reversed), fields of the current record (most recent first),
completed records (most recent first). -/
structure CsvAcc where
  st : CsvState
  field : List Char
  record : List (List Char)
  records : List (List (List Char))

/-- Initial accumulator. -/
def csvInit : CsvAcc := ⟨CsvState.startRecord, [], [], []⟩

/-- One character of the `csv.reader` scanner. -/
def csvStep (a : CsvAcc) (c : Char) : CsvAcc :=
  match a.st with
  | CsvState.startRecord =>
    if c = '\n' then
      { st := CsvState.startRecord
        field := []
        record := []
        records := [] :: a.records }
    else if c = '"' then
      { st := CsvState.inQuoted
        field := []
        record := []
        records := a.records }
    else if c = ',' then
      { st := CsvState.startField
        field := []
        record := [[]]
        records := a.records }
    else
      { st := CsvState.inField
        field := [c]
        record := []
        records := a.records }
  | CsvState.startField =>
    if c = '\n' then
      { st := CsvState.startRecord
        field := []
        record := []
        records := ((a.field.reverse :: a.record).reverse) :: a.records }
    else if c = '"' then
      { a with st := CsvState.inQuoted }
    else if c = ',' then
      { a with
        record := a.field.reverse :: a.record
        field := [] }
    else
      { a with
        st := CsvState.inField
        field := c :: a.field }
  | CsvState.inField =>
    if c = '\n' then
      { st := CsvState.startRecord
        field := []
        record := []
        records := ((a.field.reverse :: a.record).reverse) :: a.records }
    else if c = ',' then
      { a with
        st := CsvState.startField
        record := a.field.reverse :: a.record
        field := [] }
    else
      { a with field := c :: a.field }
  | CsvState.inQuoted =>
    if c = '"' then { a with st := CsvState.quoteInQuoted }
    else { a with field := c :: a.field }
  | CsvState.quoteInQuoted =>
    if c = '"' then
      { a with
        st := CsvState.inQuoted
        field := c :: a.field }
    else if c = ',' then
      { a with
        st := CsvState.startField
        record := a.field.reverse :: a.record
        field := [] }
    else if c = '\n' then
      { st := CsvState.startRecord
        field := []
        record := []
        records := ((a.field.reverse :: a.record).reverse) :: a.records }
    else
      { a with
        st := CsvState.inField
        field := c :: a.field }

/-- End-of-input finalisation of the `csv.reader` scanner: a pending
record (any state other than `startRecord`) is emitted. -/
def csvFinish (a : CsvAcc) : List (List (List Char)) :=
  match a.st with
  | CsvState.startRecord => a.records.reverse
  | _ => (((a.field.reverse :: a.record).reverse) :: a.records).reverse

/-- `list(csv.reader(f))` over already newline-normalised text. -/
def csvReader (l : List Char) : List (List (List Char)) :=
  csvFinish (l.foldl csvStep csvInit)

/-- The records `csv.reader` produces for the stored file `content`
once the text layer has applied universal newlines. -/
def parseRows (content : String) : List (List (List Char)) :=
  csvReader (univNewlines content.data)

/-- Row filter of the dispatcher (app.py line 130):
`len(row) >= 2 and row[0] and row[1]`. -/
def validRow (row : List (List Char)) : Bool :=
  match row with
  | a :: b :: _ => !a.isEmpty && !b.isEmpty
  | _ => false

/-! Data model -/

/-- The `Campaign` row fields the dispatcher touches. -/
structure CampaignRow where
  id : Nat
  status : String
  recipient_count : Nat
  success_count : Nat
  error_count : Nat
deriving DecidableEq

/-- A `CampaignError` row. -/
structure ErrorRow where
  campaign_id : Nat
  recipient_phone : String
  error_message : String
deriving DecidableEq

/-- The persisted store. -/
structure Db where
  campaigns : List CampaignRow
  errors : List ErrorRow
deriving DecidableEq

/-- `Campaign.query.get(campaign_id)`. -/
def Db.getCampaign (db : Db) (cid : Nat) : Option CampaignRow :=
  db.campaigns.find? (fun r => r.id == cid)

/-- One parsed recipient: `{'phone': row[0], 'name': row[1]}`
(app.py line 131). -/
structure Recipient where
  phone : String
  name : String
deriving DecidableEq

/-- The recipients the dispatcher keeps (app.py lines 128-132). -/
def parseRecipients (content : String) : List Recipient :=
  (parseRows content).filterMap fun row =>
    match row with
    | a :: b :: _ =>
      if a.isEmpty || b.isEmpty then none
      else some ⟨String.mk a, String.mk b⟩
    | _ => none

/-- Module-level Twilio configuration consumed by the dispatcher. -/
structure TwilioCfg where
  messaging_service_sid : String
  wpnumber : String
deriving DecidableEq

/-- The outbound request of one `twilio_client.messages.create` call
(app.py lines 150-155).  `to_` is the destination phone handed to the
keyword argument named to; `contentVar1` is the single variable of
`content_variables = json.dumps({'1': name})`; `send_at` carries the
normalised ISO string handed to `datetime.fromisoformat`. -/
structure SendReq where
  to_ : String
  contentVar1 : String
  content_sid : String
  messaging_service_sid : String
  from_ : String
  schedule_type : Option String
  send_at : Option String
deriving DecidableEq

/-- Provider outcome oracle for one send attempt: success or a raised
exception rendered as `str(e)`. -/
inductive TwilioResult
  | ok
  | exn (msg : String)

/-- Observable events of one dispatch run.  A `commit` makes the
carried campaign row and the newly inserted error rows durable as one
atomic batch (`db.session.commit()`). -/
inductive Event
  | commit (row : CampaignRow) (newErrors : List ErrorRow)
  | fileOpen (content : String)
  | fileRemove (path : String)
  | send (req : SendReq) (ok : Bool)
deriving DecidableEq

/-- Replay one event against the durable store. -/
def applyEvent (db : Db) : Event → Db
  | Event.commit row errs =>
    { campaigns := db.campaigns.map (fun r => if r.id = row.id then row else r)
      errors := db.errors ++ errs }
  | _ => db

/-- Replay a trace of events. -/
def applyEvents (db : Db) (tr : List Event) : Db :=
  tr.foldl applyEvent db

/-- Python truthiness of the optional `scheduled_at_str` argument. -/
def optTruthy : Option String → Bool
  | some s => !(s == "")
  | none => false

/-- Python `scheduled_at_str.replace('Z', '+00:00')`. -/
def pyReplaceZ (s : String) : String :=
  String.mk (s.data.foldr
    (fun c acc => if c = 'Z' then '+' :: '0' :: '0' :: ':' :: '0' :: '0' :: acc
                  else c :: acc) [])

/-- Whether the dispatcher adds provider-side scheduling options
(app.py line 145: `if schedule_type == 'later' and scheduled_at_str`). -/
def laterScheduling (schedule_type : String) (scheduled_at_str : Option String) :
    Bool :=
  (schedule_type == "later") && optTruthy scheduled_at_str

/-- The request built for one recipient from the shared `send_options`
dictionary (app.py lines 139-155).  `datetime.fromisoformat` is
modelled as carrying its (Z-normalised) argument string. -/
def mkSendReq (cfg : TwilioCfg) (template_sid schedule_type : String)
    (scheduled_at_str : Option String) (r : Recipient) : SendReq :=
  { to_ := r.phone
    contentVar1 := r.name
    content_sid := template_sid
    messaging_service_sid := cfg.messaging_service_sid
    from_ := cfg.wpnumber
    schedule_type :=
      if laterScheduling schedule_type scheduled_at_str then some "fixed" else none
    send_at :=
      if laterScheduling schedule_type scheduled_at_str then
        some (pyReplaceZ (scheduled_at_str.getD ""))
      else none }

/-- Result of the send loop: counters, the pending `CampaignError`
inserts, and the send events in attempt order. -/
structure SendPhase where
  success_count : Nat
  error_count : Nat
  pendingErrors : List ErrorRow
  events : List Event

/-- The send loop (app.py lines 148-161): one attempt per recipient in
order; a raised send is caught, counted, and recorded, and the loop
continues. -/
def runSends (env : Nat → TwilioResult) (cid : Nat) (mk : Recipient → SendReq) :
    List Recipient → Nat → SendPhase
  | [], _ => ⟨0, 0, [], []⟩
  | r :: rest, i =>
    let p := runSends env cid mk rest (i + 1)
    match env i with
    | TwilioResult.ok =>
      ⟨p.success_count + 1, p.error_count, p.pendingErrors,
       Event.send (mk r) true :: p.events⟩
    | TwilioResult.exn msg =>
      ⟨p.success_count, p.error_count + 1,
       ⟨cid, r.phone, clean_twilio_error msg⟩ :: p.pendingErrors,
       Event.send (mk r) false :: p.events⟩

/-- Terminal status computation (app.py lines 166-174). -/
def terminal_status (schedule_type : String) (success_count error_count : Nat) :
    String :=
  if schedule_type = "now" then
    if error_count = 0 then "Enviada" else "Enviada con Errores"
  else
    if success_count > 0 ∧ error_count > 0 then "Programada con Errores"
    else if success_count > 0 ∧ error_count = 0 then "Programada"
    else "Error en Programación"

/-- Everything one dispatch run leaves behind: its event trace, whether
it ended by raising an uncaught exception, the durable store (the
replay of the trace), and the filesystem. -/
structure TaskOutcome where
  trace : List Event
  raised : Bool
  db : Db
  fs : String → Option String

/-- `process_campaign_task` (app.py lines 116-176).

* unknown campaign id: print-and-return, nothing touched;
* the `Procesando` status is committed before the file is opened;
* a missing file makes `open` raise `FileNotFoundError`, which nothing
  in the task catches: the run stops there;
* otherwise the file is parsed, removed, each valid recipient gets one
  send attempt, and one final commit persists the counters, the
  terminal status and the pending error rows. -/
def process_campaign_task (db0 : Db) (fs0 : String → Option String)
    (env : Nat → TwilioResult) (cfg : TwilioCfg) (campaign_id : Nat)
    (temp_csv_path template_sid schedule_type : String)
    (scheduled_at_str : Option String) : TaskOutcome :=
  match db0.getCampaign campaign_id with
  | none => ⟨[], false, db0, fs0⟩
  | some campaign0 =>
    let campaign1 : CampaignRow := { campaign0 with status := "Procesando" }
    let ev1 := Event.commit campaign1 []
    match fs0 temp_csv_path with
    | none => ⟨[ev1], true, applyEvents db0 [ev1], fs0⟩
    | some content =>
      let recipients := parseRecipients content
      let fs1 : String → Option String :=
        fun p => if p = temp_csv_path then none else fs0 p
      let mk := mkSendReq cfg template_sid schedule_type scheduled_at_str
      let phase := runSends env campaign_id mk recipients 0
      let finalRow : CampaignRow :=
        { campaign1 with
          success_count := phase.success_count
          error_count := phase.error_count
          status :=
            terminal_status schedule_type phase.success_count phase.error_count }
      let tr := ev1 :: Event.fileOpen content :: Event.fileRemove temp_csv_path ::
        (phase.events ++ [Event.commit finalRow phase.pendingErrors])
      ⟨tr, false, applyEvents db0 tr, fs1⟩

/-- Terminal-status table transcribed from the specification (§4.1),
`none` outside the nine combinations the table defines. -/
def specTerminalStatus (mode : String) (s e : Nat) : Option String :=
  if mode = "now" ∧ e = 0 then some "Enviada"
  else if mode = "now" ∧ 0 < e then some "Enviada con Errores"
  else if mode = "later" ∧ 0 < s ∧ 0 < e then some "Programada con Errores"
  else if mode = "later" ∧ 0 < s ∧ e = 0 then some "Programada"
  else if mode = "later" ∧ s = 0 then some "Error en Programación"
  else none

/-- The campaign row right after the `Procesando` commit. -/
def procRow (row0 : CampaignRow) : CampaignRow := { row0 with status := "Procesando" }

/-- The send phase of one dispatch run over the stored file content. -/
def dispatchPhase (env : Nat → TwilioResult) (cfg : TwilioCfg) (cid : Nat)
    (sid mode : String) (sat : Option String) (content : String) : SendPhase :=
  runSends env cid (mkSendReq cfg sid mode sat) (parseRecipients content) 0

/-- The campaign row the final commit persists. -/
def finalCampaignRow (row0 : CampaignRow) (mode : String) (phase : SendPhase) :
    CampaignRow :=
  { row0 with
    status := terminal_status mode phase.success_count phase.error_count
    success_count := phase.success_count
    error_count := phase.error_count }

/-- The event trace of a run that found its campaign and its file. -/
def dispatchTrace (env : Nat → TwilioResult) (cfg : TwilioCfg) (cid : Nat)
    (path sid mode : String) (sat : Option String) (row0 : CampaignRow)
    (content : String) : List Event :=
  Event.commit (procRow row0) [] :: Event.fileOpen content ::
    Event.fileRemove path ::
    ((dispatchPhase env cfg cid sid mode sat content).events ++
      [Event.commit
        (finalCampaignRow row0 mode (dispatchPhase env cfg cid sid mode sat content))
        (dispatchPhase env cfg cid sid mode sat content).pendingErrors])

/-- Event classifiers. -/
def isCommitEvent : Event → Bool
  | Event.commit _ _ => true
  | _ => false

/-- Whether an event is a send attempt. -/
def isSendEvent : Event → Bool
  | Event.send _ _ => true
  | _ => false

/-- The send requests of a trace, in order. -/
def sendReqsOf (tr : List Event) : List SendReq :=
  tr.filterMap fun e =>
    match e with
    | Event.send r _ => some r
    | _ => none

/-! Counting helpers for the recipient-count invariant -/

/-- Records already emitted plus the pending one, if any: the length
`csvFinish` will produce. -/
def gMeasure (a : CsvAcc) : Nat :=
  a.records.length + (if a.st = CsvState.startRecord then 0 else 1)

/-- One extra credit when the text does not end in a newline. -/
def endBonus : List Char → Nat
  | [] => 0
  | [c] => if c = '\n' then 0 else 1
  | _ :: c :: rest => endBonus (c :: rest)

/-- The length of `splitlinesGo cur l`, which does not depend on
`cur`. -/
def splitCount : List Char → Nat
  | [] => 1
  | [_] => 1
  | c :: d :: r =>
    if c = '\r' && d = '\n' then 1 + (if r.isEmpty then 0 else splitCount r)
    else if isLineBoundary c then 1 + splitCount (d :: r)
    else splitCount (d :: r)

/-- Newline count. -/
def nlCount (l : List Char) : Nat := l.count '\n'

/-! Concrete inputs used by the closing witnesses -/

/-- A campaign row as `create_campaign` stores it for a two-line
upload. -/
def wRow : CampaignRow := ⟨1, "En Cola", 2, 0, 0⟩

/-- A store holding that one campaign. -/
def wDb : Db := ⟨[wRow], []⟩

/-- The temporary path `create_campaign` uses for campaign 1. -/
def wPath : String := "uploads/campaign_1.csv"

/-- A stored recipient file: one valid row, one malformed row. -/
def wContent : String := "phone1,alice\nmalformed\n"

/-- A filesystem holding only that file. -/
def wFs : String → Option String :=
  fun p => if p = wPath then some wContent else none

/-- A filesystem with no files. -/
def wFsNone : String → Option String := fun _ => none

/-- A provider that accepts every send. -/
def wEnv : Nat → TwilioResult := fun _ => TwilioResult.ok

/-- A provider that rejects every send. -/
def wEnvFail : Nat → TwilioResult := fun _ => TwilioResult.exn "boom"

/-- Module-level Twilio configuration. -/
def wCfg : TwilioCfg := ⟨"MG1", "WP1"⟩

/-- Provider error string on which cleaning is not idempotent: an ESC
that only becomes the start of an ANSI sequence after the first
substitution pass has removed the text between it and the rest of the
sequence. -/
def c6Input : String := String.mk [escChar, escChar, '[', 'm', '[', 'm']

/-! Basic lemmas about the run -/

/-- The regex fragment consumed by a successful CSI match is nonempty. -/
theorem csiSplit_length_lt {l r : List Char} (h : csiSplit l = some r) :
    r.length < l.length := by
  have hsub : ∀ (p : Char → Bool) (m : List Char),
      (m.dropWhile p).length ≤ m.length := by
    intro p m
    exact (List.dropWhile_suffix p).sublist.length_le
  unfold csiSplit at h
  cases h2 : (l.dropWhile isCsiParamByte).dropWhile isCsiIntermediateByte with
  | nil => rw [h2] at h; simp at h
  | cons f rest =>
    rw [h2] at h
    by_cases hf : isCsiFinalByte f = true
    · simp [hf] at h
      have h3 : (f :: rest).length ≤ l.length := by
        calc (f :: rest).length
            = ((l.dropWhile isCsiParamByte).dropWhile isCsiIntermediateByte).length := by
              rw [h2]
          _ ≤ (l.dropWhile isCsiParamByte).length := hsub _ _
          _ ≤ l.length := hsub _ _
      subst h
      simp only [List.length_cons] at h3
      omega
    · simp [hf] at h

/-- The fuel is irrelevant once it covers the input length. -/
theorem ansiStripF_irrel :
    ∀ (fuel : Nat) (l : List Char) (fuel' : Nat), l.length ≤ fuel →
      l.length ≤ fuel' → ansiStripF fuel l = ansiStripF fuel' l := by
  intro fuel
  induction fuel with
  | zero =>
    intro l fuel' h1 _
    have : l = [] := List.length_eq_zero.mp (Nat.le_zero.mp h1)
    subst this
    cases fuel' <;> rfl
  | succ fuel ih =>
    intro l fuel' h1 h2
    cases l with
    | nil => cases fuel' <;> rfl
    | cons c rest =>
      simp only [List.length_cons] at h1 h2
      obtain ⟨fe, rfl⟩ : ∃ fe, fuel' = fe + 1 := ⟨fuel' - 1, by omega⟩
      by_cases hc : c = escChar
      · subst hc
        cases rest with
        | nil => simp [ansiStripF]
        | cons d rest2 =>
          simp only [List.length_cons] at h1 h2
          by_cases hd : isAnsiSingleFinal d = true
          · simp only [ansiStripF, hd, if_pos rfl, if_true]
            exact ih rest2 fe (by omega) (by omega)
          · by_cases hbr : d = '['
            · subst hbr
              cases hcsi : csiSplit rest2 with
              | some rem =>
                have hlt := csiSplit_length_lt hcsi
                simp only [ansiStripF, hd, hcsi, if_pos rfl, if_true,
                  Bool.false_eq_true, if_false]
                exact ih rem fe (by omega) (by omega)
              | none =>
                simp only [ansiStripF, hd, hcsi, if_pos rfl, if_true,
                  Bool.false_eq_true, if_false]
                rw [ih ('[' :: rest2) fe (by simp only [List.length_cons]; omega)
                  (by simp only [List.length_cons]; omega)]
            · simp only [ansiStripF, hd, if_pos rfl, if_true, if_neg hbr,
                Bool.false_eq_true, if_false]
              rw [ih (d :: rest2) fe (by simp only [List.length_cons]; omega)
                (by simp only [List.length_cons]; omega)]
      · simp only [ansiStripF, if_neg hc]
        rw [ih rest fe (by omega) (by omega)]

theorem getCampaign_id {db : Db} {cid : Nat} {r : CampaignRow}
    (h : db.getCampaign cid = some r) : r.id = cid := by
  have := List.find?_some h
  simpa using this

theorem applyEvent_noncommit (db : Db) {e : Event} (h : isCommitEvent e = false) :
    applyEvent db e = db := by
  cases e with
  | commit row errs => simp [isCommitEvent] at h
  | fileOpen c => rfl
  | fileRemove p => rfl
  | send r ok => rfl

theorem applyEvents_noncommit (db : Db) {tr : List Event}
    (h : ∀ e ∈ tr, isCommitEvent e = false) : applyEvents db tr = db := by
  induction tr generalizing db with
  | nil => rfl
  | cons e rest ih =>
    have he : isCommitEvent e = false := h e (by simp)
    show applyEvents (applyEvent db e) rest = db
    rw [applyEvent_noncommit db he]
    exact ih db (fun x hx => h x (by simp [hx]))

theorem find?_map_update {l : List CampaignRow} {cid : Nat} {r0 row : CampaignRow}
    (hfind : l.find? (fun r => r.id == cid) = some r0) (hid : row.id = cid) :
    (l.map (fun r => if r.id = row.id then row else r)).find?
      (fun r => r.id == cid) = some row := by
  induction l with
  | nil => simp at hfind
  | cons a tl ih =>
    by_cases ha : a.id = cid
    · have h1 : (a.id == cid) = true := by simpa using ha
      have h2 : (if a.id = row.id then row else a) = row := by
        rw [if_pos (by omega)]
      simp only [List.map_cons, h2]
      have h3 : (row.id == cid) = true := by simpa using hid
      simp [List.find?_cons, h3]
    · have h1 : (a.id == cid) = false := by simpa using ha
      rw [List.find?_cons, h1] at hfind
      have h2 : (if a.id = row.id then row else a) = a := by
        rw [if_neg (by omega)]
      simp only [List.map_cons, h2]
      rw [List.find?_cons, h1]
      exact ih hfind

theorem getCampaign_commit {db : Db} {cid : Nat} {r0 row : CampaignRow}
    (hdb : db.getCampaign cid = some r0) (hid : row.id = cid)
    (errs : List ErrorRow) :
    (applyEvent db (Event.commit row errs)).getCampaign cid = some row := by
  show (db.campaigns.map (fun r => if r.id = row.id then row else r)).find?
      (fun r => r.id == cid) = some row
  exact find?_map_update hdb hid

theorem errors_commit (db : Db) (row : CampaignRow) (errs : List ErrorRow) :
    (applyEvent db (Event.commit row errs)).errors = db.errors ++ errs := rfl

/-! Lemmas about the send loop -/

theorem runSends_counts (env : Nat → TwilioResult) (cid : Nat)
    (mk : Recipient → SendReq) :
    ∀ (rs : List Recipient) (i : Nat),
      (runSends env cid mk rs i).success_count +
        (runSends env cid mk rs i).error_count = rs.length := by
  intro rs
  induction rs with
  | nil => intro i; rfl
  | cons r rest ih =>
    intro i
    cases h : env i <;> simp [runSends, h] <;> have := ih (i + 1) <;> omega

theorem runSends_errors_length (env : Nat → TwilioResult) (cid : Nat)
    (mk : Recipient → SendReq) :
    ∀ (rs : List Recipient) (i : Nat),
      (runSends env cid mk rs i).pendingErrors.length =
        (runSends env cid mk rs i).error_count := by
  intro rs
  induction rs with
  | nil => intro i; rfl
  | cons r rest ih =>
    intro i
    cases h : env i <;> simp [runSends, h] <;> exact ih (i + 1)

theorem runSends_reqs (env : Nat → TwilioResult) (cid : Nat)
    (mk : Recipient → SendReq) :
    ∀ (rs : List Recipient) (i : Nat),
      sendReqsOf (runSends env cid mk rs i).events = rs.map mk := by
  intro rs
  induction rs with
  | nil => intro i; rfl
  | cons r rest ih =>
    intro i
    cases h : env i <;> simp [runSends, h, sendReqsOf] <;>
      simpa [sendReqsOf] using ih (i + 1)

theorem runSends_events_send (env : Nat → TwilioResult) (cid : Nat)
    (mk : Recipient → SendReq) :
    ∀ (rs : List Recipient) (i : Nat),
      ∀ e ∈ (runSends env cid mk rs i).events, isSendEvent e = true := by
  intro rs
  induction rs with
  | nil => intro i e he; simp [runSends] at he
  | cons r rest ih =>
    intro i e he
    cases h : env i <;> rw [runSends, h] at he <;> simp at he <;>
      rcases he with he | he
    · subst he; rfl
    · exact ih (i + 1) e he
    · subst he; rfl
    · exact ih (i + 1) e he

theorem parseRecipients_length (content : String) :
    (parseRecipients content).length =
      ((parseRows content).filter validRow).length := by
  unfold parseRecipients
  generalize parseRows content = rows
  induction rows with
  | nil => rfl
  | cons row rest ih =>
    rw [List.filterMap_cons, List.filter_cons]
    match row with
    | [] => simpa [validRow] using ih
    | [a] => simpa [validRow] using ih
    | a :: b :: tl =>
      by_cases ha : a.isEmpty
      · simpa [validRow, ha] using ih
      · by_cases hb : b.isEmpty
        · simpa [validRow, ha, hb] using ih
        · simpa [validRow, ha, hb] using ih

/-! Characterisation of the run in each of its three control paths -/

theorem task_not_found {db0 : Db} {fs0 : String → Option String}
    (env : Nat → TwilioResult) (cfg : TwilioCfg) {cid : Nat}
    (path sid mode : String) (sat : Option String)
    (hdb : db0.getCampaign cid = none) :
    process_campaign_task db0 fs0 env cfg cid path sid mode sat =
      ⟨[], false, db0, fs0⟩ := by
  simp [process_campaign_task, hdb]

theorem task_missing_file {db0 : Db} {fs0 : String → Option String}
    (env : Nat → TwilioResult) (cfg : TwilioCfg) {cid : Nat}
    {path : String} (sid mode : String) (sat : Option String)
    {row0 : CampaignRow} (hdb : db0.getCampaign cid = some row0)
    (hfs : fs0 path = none) :
    process_campaign_task db0 fs0 env cfg cid path sid mode sat =
      ⟨[Event.commit (procRow row0) []], true,
        applyEvents db0 [Event.commit (procRow row0) []], fs0⟩ := by
  simp [process_campaign_task, hdb, hfs, procRow]

theorem task_found_file {db0 : Db} {fs0 : String → Option String}
    (env : Nat → TwilioResult) (cfg : TwilioCfg) {cid : Nat}
    {path : String} (sid mode : String) (sat : Option String)
    {row0 : CampaignRow} {content : String}
    (hdb : db0.getCampaign cid = some row0)
    (hfs : fs0 path = some content) :
    process_campaign_task db0 fs0 env cfg cid path sid mode sat =
      ⟨dispatchTrace env cfg cid path sid mode sat row0 content, false,
        applyEvents db0 (dispatchTrace env cfg cid path sid mode sat row0 content),
        fun p => if p = path then none else fs0 p⟩ := by
  simp [process_campaign_task, hdb, hfs, dispatchTrace, dispatchPhase,
    finalCampaignRow, procRow]

theorem applyEvents_cons (db : Db) (e : Event) (tr : List Event) :
    applyEvents db (e :: tr) = applyEvents (applyEvent db e) tr := rfl

theorem applyEvents_append (db : Db) (l1 l2 : List Event) :
    applyEvents db (l1 ++ l2) = applyEvents (applyEvents db l1) l2 :=
  List.foldl_append _ _ _ _

theorem sendEvent_not_commit {e : Event} (h : isSendEvent e = true) :
    isCommitEvent e = false := by
  cases e <;> simp [isSendEvent, isCommitEvent] at h ⊢

theorem applyEvents_dispatch_shape (db : Db) (r : CampaignRow) (content : String)
    (path : String) (evs : List Event)
    (hevs : ∀ e ∈ evs, isCommitEvent e = false) (fr : CampaignRow)
    (pend : List ErrorRow) :
    applyEvents db (Event.commit r [] :: Event.fileOpen content ::
        Event.fileRemove path :: (evs ++ [Event.commit fr pend])) =
      applyEvent (applyEvent db (Event.commit r [])) (Event.commit fr pend) := by
  rw [applyEvents_cons, applyEvents_cons, applyEvents_cons]
  rw [applyEvent_noncommit _ (by rfl), applyEvent_noncommit _ (by rfl)]
  rw [applyEvents_append, applyEvents_noncommit _ hevs]
  rfl

theorem dispatchPhase_events_noncommit (env : Nat → TwilioResult)
    (cfg : TwilioCfg) (cid : Nat) (sid mode : String) (sat : Option String)
    (content : String) :
    ∀ e ∈ (dispatchPhase env cfg cid sid mode sat content).events,
      isCommitEvent e = false := by
  intro e he
  exact sendEvent_not_commit
    (runSends_events_send env cid (mkSendReq cfg sid mode sat)
      (parseRecipients content) 0 e he)

theorem dispatch_db_final {db0 : Db} (env : Nat → TwilioResult) (cfg : TwilioCfg)
    {cid : Nat} (path sid mode : String) (sat : Option String)
    {row0 : CampaignRow} (content : String)
    (hdb : db0.getCampaign cid = some row0) :
    (applyEvents db0
        (dispatchTrace env cfg cid path sid mode sat row0 content)).getCampaign
        cid =
      some (finalCampaignRow row0 mode
        (dispatchPhase env cfg cid sid mode sat content)) ∧
    (applyEvents db0
        (dispatchTrace env cfg cid path sid mode sat row0 content)).errors =
      db0.errors ++ (dispatchPhase env cfg cid sid mode sat content).pendingErrors
      := by
  have hid := getCampaign_id hdb
  have hidp : (procRow row0).id = cid := by simpa [procRow] using hid
  have hidf :
      (finalCampaignRow row0 mode
        (dispatchPhase env cfg cid sid mode sat content)).id = cid := by
    simpa [finalCampaignRow] using hid
  have hdb1g :
      (applyEvent db0 (Event.commit (procRow row0) [])).getCampaign cid =
        some (procRow row0) :=
    getCampaign_commit hdb hidp []
  have hdb1e : (applyEvent db0 (Event.commit (procRow row0) [])).errors =
      db0.errors := by
    rw [errors_commit]
    exact List.append_nil _
  rw [show dispatchTrace env cfg cid path sid mode sat row0 content =
      Event.commit (procRow row0) [] :: Event.fileOpen content ::
        Event.fileRemove path ::
        ((dispatchPhase env cfg cid sid mode sat content).events ++
          [Event.commit
            (finalCampaignRow row0 mode
              (dispatchPhase env cfg cid sid mode sat content))
            (dispatchPhase env cfg cid sid mode sat content).pendingErrors])
      from rfl]
  rw [applyEvents_dispatch_shape db0 (procRow row0) content path _
    (dispatchPhase_events_noncommit env cfg cid sid mode sat content) _ _]
  constructor
  · exact getCampaign_commit hdb1g hidf _
  · rw [errors_commit, hdb1e]

theorem sendReqsOf_dispatchTrace (env : Nat → TwilioResult) (cfg : TwilioCfg)
    (cid : Nat) (path sid mode : String) (sat : Option String)
    (row0 : CampaignRow) (content : String) :
    sendReqsOf (dispatchTrace env cfg cid path sid mode sat row0 content) =
      (parseRecipients content).map (mkSendReq cfg sid mode sat) := by
  unfold dispatchTrace
  rw [show sendReqsOf (Event.commit (procRow row0) [] :: Event.fileOpen content ::
      Event.fileRemove path ::
      ((dispatchPhase env cfg cid sid mode sat content).events ++
        [Event.commit
          (finalCampaignRow row0 mode
            (dispatchPhase env cfg cid sid mode sat content))
          (dispatchPhase env cfg cid sid mode sat content).pendingErrors])) =
      sendReqsOf ((dispatchPhase env cfg cid sid mode sat content).events ++
        [Event.commit
          (finalCampaignRow row0 mode
            (dispatchPhase env cfg cid sid mode sat content))
          (dispatchPhase env cfg cid sid mode sat content).pendingErrors])
      from rfl]
  unfold sendReqsOf
  rw [List.filterMap_append]
  simp only [List.filterMap_cons, List.filterMap_nil, List.append_nil]
  exact runSends_reqs env cid (mkSendReq cfg sid mode sat)
    (parseRecipients content) 0

theorem prefix_cons_cases {α : Type} {p : List α} {a : α} {l : List α}
    (h : p <+: a :: l) : p = [] ∨ ∃ q, p = a :: q ∧ q <+: l := by
  cases p with
  | nil => exact Or.inl rfl
  | cons x q =>
    obtain ⟨t, ht⟩ := h
    simp only [List.cons_append] at ht
    injection ht with h1 h2
    subst h1
    exact Or.inr ⟨q, rfl, ⟨t, h2⟩⟩

theorem prefix_concat_cases {α : Type} {p l : List α} {x : α}
    (h : p <+: l ++ [x]) : p <+: l ∨ p = l ++ [x] := by
  induction l generalizing p with
  | nil =>
    rcases prefix_cons_cases h with rfl | ⟨q, rfl, hq⟩
    · exact Or.inl List.nil_prefix
    · have : q = [] := List.prefix_nil.mp hq
      subst this
      exact Or.inr rfl
  | cons a tl ih =>
    rcases prefix_cons_cases h with rfl | ⟨q, rfl, hq⟩
    · exact Or.inl List.nil_prefix
    · rcases ih hq with h1 | h1
      · exact Or.inl (List.cons_prefix_cons.mpr ⟨rfl, h1⟩)
      · subst h1
        exact Or.inr rfl

/-- Every store a reader can observe during a run that found its
campaign and its file: the pre-dispatch store (empty prefix), the
store right after the `Procesando` commit (any prefix short of the
final commit), or the fully updated store (the whole trace). -/
theorem dispatch_prefix_view {db0 : Db} (env : Nat → TwilioResult)
    (cfg : TwilioCfg) {cid : Nat} (path sid mode : String) (sat : Option String)
    {row0 : CampaignRow} (content : String)
    (hdb : db0.getCampaign cid = some row0) :
    ∀ p, p <+: dispatchTrace env cfg cid path sid mode sat row0 content →
      (p = [] ∧ applyEvents db0 p = db0) ∨
      ((applyEvents db0 p).getCampaign cid = some (procRow row0) ∧
        (applyEvents db0 p).errors = db0.errors) ∨
      ((applyEvents db0 p).getCampaign cid =
          some (finalCampaignRow row0 mode
            (dispatchPhase env cfg cid sid mode sat content)) ∧
        (applyEvents db0 p).errors =
          db0.errors ++
            (dispatchPhase env cfg cid sid mode sat content).pendingErrors) := by
  intro p hp
  have hid := getCampaign_id hdb
  have hidp : (procRow row0).id = cid := by simpa [procRow] using hid
  have hidf :
      (finalCampaignRow row0 mode
        (dispatchPhase env cfg cid sid mode sat content)).id = cid := by
    simpa [finalCampaignRow] using hid
  rcases prefix_cons_cases hp with rfl | ⟨q, rfl, hq⟩
  · exact Or.inl ⟨rfl, rfl⟩
  have hdb1g := getCampaign_commit hdb hidp ([] : List ErrorRow)
  have hdb1e : (applyEvent db0 (Event.commit (procRow row0) [])).errors =
      db0.errors := by
    rw [errors_commit]
    exact List.append_nil _
  rw [applyEvents_cons]
  rcases prefix_cons_cases hq with rfl | ⟨q2, rfl, hq2⟩
  · exact Or.inr (Or.inl ⟨hdb1g, hdb1e⟩)
  rw [applyEvents_cons, applyEvent_noncommit _ (by rfl)]
  rcases prefix_cons_cases hq2 with rfl | ⟨q3, rfl, hq3⟩
  · exact Or.inr (Or.inl ⟨hdb1g, hdb1e⟩)
  rw [applyEvents_cons, applyEvent_noncommit _ (by rfl)]
  rcases prefix_concat_cases hq3 with h1 | h1
  · have hq3n : applyEvents (applyEvent db0 (Event.commit (procRow row0) []))
        q3 = applyEvent db0 (Event.commit (procRow row0) []) :=
      applyEvents_noncommit _ (fun e he =>
        dispatchPhase_events_noncommit env cfg cid sid mode sat content e
          (h1.subset he))
    rw [hq3n]
    exact Or.inr (Or.inl ⟨hdb1g, hdb1e⟩)
  · subst h1
    rw [applyEvents_append,
      applyEvents_noncommit _
        (dispatchPhase_events_noncommit env cfg cid sid mode sat content)]
    refine Or.inr (Or.inr ⟨getCampaign_commit hdb1g hidf _, ?_⟩)
    show (applyEvent (applyEvent db0 (Event.commit (procRow row0) []))
      (Event.commit _ _)).errors = _
    rw [errors_commit, hdb1e]

/-- The terminal status is never one of the two transient statuses. -/
theorem terminal_status_ne (m : String) (s e : Nat) :
    terminal_status m s e ≠ "En Cola" ∧ terminal_status m s e ≠ "Procesando" := by
  unfold terminal_status
  split
  · split
    · exact ⟨by decide, by decide⟩
    · exact ⟨by decide, by decide⟩
  · split
    · exact ⟨by decide, by decide⟩
    · split
      · exact ⟨by decide, by decide⟩
      · exact ⟨by decide, by decide⟩

/-! Record counting: `csv.reader` cannot produce more records than the
uploaded text has `splitlines` lines -/

theorem csvFinish_length (a : CsvAcc) : (csvFinish a).length = gMeasure a := by
  obtain ⟨st, f, rec, recs⟩ := a
  cases st <;> simp [csvFinish, gMeasure]

theorem csvStep_gMeasure (a : CsvAcc) (c : Char) :
    (a.st = CsvState.startRecord → gMeasure (csvStep a c) = gMeasure a + 1) ∧
    (a.st ≠ CsvState.startRecord → gMeasure (csvStep a c) = gMeasure a) := by
  obtain ⟨st, f, rec, recs⟩ := a
  cases st <;> constructor <;> intro h <;> try simp at h
  all_goals
    by_cases h1 : c = '\n' <;> by_cases h2 : c = '"' <;> by_cases h3 : c = ',' <;>
      simp [csvStep, gMeasure, h1, h2, h3]

theorem csvStep_st_nl {a : CsvAcc} (h : a.st ≠ CsvState.inQuoted) :
    (csvStep a '\n').st = CsvState.startRecord := by
  obtain ⟨st, f, rec, recs⟩ := a
  cases st <;> simp at h ⊢ <;> simp [csvStep]

theorem csvStep_st_nl_quoted {a : CsvAcc} (h : a.st = CsvState.inQuoted) :
    (csvStep a '\n').st = CsvState.inQuoted := by
  obtain ⟨st, f, rec, recs⟩ := a
  simp at h
  subst h
  simp [csvStep]

theorem csvStep_st_notnl {a : CsvAcc} {c : Char} (hc : c ≠ '\n')
    (hq : a.st = CsvState.startRecord → False) :
    (csvStep a c).st ≠ CsvState.startRecord := by
  obtain ⟨st, f, rec, recs⟩ := a
  cases st <;> try exact absurd rfl hq
  all_goals
    by_cases h2 : c = '"' <;> by_cases h3 : c = ',' <;>
      simp [csvStep, hc, h2, h3]

theorem csvStep_st_sr_notnl {a : CsvAcc} {c : Char}
    (hsr : a.st = CsvState.startRecord) (hc : c ≠ '\n') :
    (csvStep a c).st ≠ CsvState.startRecord := by
  obtain ⟨st, f, rec, recs⟩ := a
  simp at hsr
  subst hsr
  by_cases h2 : c = '"' <;> by_cases h3 : c = ',' <;>
    simp [csvStep, hc, h2, h3]

theorem endBonus_cons (c : Char) (l : List Char) :
    endBonus (c :: l) =
      if l = [] then (if c = '\n' then 0 else 1) else endBonus l := by
  cases l with
  | nil => rfl
  | cons d r => simp [endBonus]

/-- Fold invariant: starting from `startRecord` the scanner can emit at
most one record per newline plus one trailing record when the text
does not end in a newline; starting mid-record the trailing record is
already accounted for in `gMeasure`. -/
theorem csv_fold_bound :
    ∀ (l : List Char) (a : CsvAcc),
      (a.st = CsvState.startRecord →
        gMeasure (l.foldl csvStep a) ≤ gMeasure a + nlCount l + endBonus l) ∧
      (a.st ≠ CsvState.startRecord → l ≠ [] →
        gMeasure (l.foldl csvStep a) + 1 ≤
          gMeasure a + nlCount l + endBonus l) := by
  intro l
  induction l with
  | nil =>
    intro a
    refine ⟨fun _ => ?_, fun _ h => absurd rfl h⟩
    simp [nlCount, endBonus]
  | cons c rest ih =>
    intro a
    have hnl : nlCount (c :: rest) =
        nlCount rest + (if c = '\n' then 1 else 0) := by
      simp [nlCount, List.count_cons]
    constructor
    · intro hsr
      rw [List.foldl_cons]
      have hg := (csvStep_gMeasure a c).1 hsr
      by_cases hc : c = '\n'
      · subst hc
        have hst : (csvStep a '\n').st = CsvState.startRecord :=
          csvStep_st_nl (by simp [hsr])
        cases rest with
        | nil =>
          have h0 : (List.foldl csvStep (csvStep a '\n') []) = csvStep a '\n' :=
            rfl
          rw [h0, hg, hnl]
          simp [endBonus, nlCount]
        | cons r2 rest2 =>
          have IH := (ih (csvStep a '\n')).1 hst
          rw [hg] at IH
          rw [hnl, endBonus_cons, if_pos rfl,
            if_neg (show (r2 :: rest2 : List Char) ≠ [] by simp)]
          omega
      · have hst := csvStep_st_sr_notnl hsr hc
        cases rest with
        | nil =>
          have h0 : (List.foldl csvStep (csvStep a c) []) = csvStep a c := rfl
          rw [h0, hg, hnl]
          simp [endBonus, nlCount, hc]
        | cons r2 rest2 =>
          have IH := (ih (csvStep a c)).2 hst (by simp)
          rw [hg] at IH
          rw [hnl, endBonus_cons, if_neg hc,
            if_neg (show (r2 :: rest2 : List Char) ≠ [] by simp)]
          omega
    · intro hnsr _
      rw [List.foldl_cons]
      have hg := (csvStep_gMeasure a c).2 hnsr
      by_cases hc : c = '\n'
      · subst hc
        by_cases hq : a.st = CsvState.inQuoted
        · have hst : (csvStep a '\n').st = CsvState.inQuoted :=
            csvStep_st_nl_quoted hq
          cases rest with
          | nil =>
            have h0 : (List.foldl csvStep (csvStep a '\n') []) =
              csvStep a '\n' := rfl
            rw [h0, hg, hnl]
            simp [endBonus, nlCount]
          | cons r2 rest2 =>
            have IH := (ih (csvStep a '\n')).2 (by simp [hst]) (by simp)
            rw [hg] at IH
            rw [hnl, endBonus_cons, if_pos rfl,
              if_neg (show (r2 :: rest2 : List Char) ≠ [] by simp)]
            omega
        · have hst : (csvStep a '\n').st = CsvState.startRecord :=
            csvStep_st_nl hq
          cases rest with
          | nil =>
            have h0 : (List.foldl csvStep (csvStep a '\n') []) =
              csvStep a '\n' := rfl
            rw [h0, hg, hnl]
            simp [endBonus, nlCount]
          | cons r2 rest2 =>
            have IH := (ih (csvStep a '\n')).1 hst
            rw [hg] at IH
            rw [hnl, endBonus_cons, if_pos rfl,
              if_neg (show (r2 :: rest2 : List Char) ≠ [] by simp)]
            omega
      · have hst := csvStep_st_notnl hc (fun hcon => hnsr hcon)
        cases rest with
        | nil =>
          have h0 : (List.foldl csvStep (csvStep a c) []) = csvStep a c := rfl
          rw [h0, hg, hnl]
          simp [endBonus, nlCount, hc]
        | cons r2 rest2 =>
          have IH := (ih (csvStep a c)).2 hst (by simp)
          rw [hg] at IH
          rw [hnl, endBonus_cons, if_neg hc,
            if_neg (show (r2 :: rest2 : List Char) ≠ [] by simp)]
          omega

theorem csvReader_length_le (l : List Char) :
    (csvReader l).length ≤ nlCount l + endBonus l := by
  unfold csvReader
  rw [csvFinish_length]
  have h := (csv_fold_bound l csvInit).1 rfl
  simpa [gMeasure, csvInit] using h

theorem splitlinesGo_length :
    ∀ (n : Nat) (l : List Char), l.length ≤ n →
      ∀ cur, (splitlinesGo cur l).length = splitCount l := by
  intro n
  induction n with
  | zero =>
    intro l h cur
    have : l = [] := List.length_eq_zero.mp (Nat.le_zero.mp h)
    subst this
    rfl
  | succ n ihn =>
    intro l h cur
    match l with
    | [] => rfl
    | [c] =>
      by_cases hb : isLineBoundary c <;> simp [splitlinesGo, splitCount, hb]
    | c :: d :: r =>
      simp only [List.length_cons] at h
      by_cases hc : c = '\r'
      · by_cases hd : d = '\n'
        · subst hc
          subst hd
          cases r with
          | nil => simp [splitlinesGo, splitCount]
          | cons e r2 =>
            have hr := ihn (e :: r2) (by simp only [List.length_cons] at h ⊢; omega) []
            simp [splitlinesGo, splitCount, hr]
            omega
        · subst hc
          have hr := ihn (d :: r) (by simp only [List.length_cons] at h ⊢; omega) []
          simp [splitlinesGo, splitCount, hd, isLineBoundary, hr]
          omega
      · by_cases hb : isLineBoundary c
        · have hr := ihn (d :: r) (by simp only [List.length_cons] at h ⊢; omega) []
          simp [splitlinesGo, splitCount, hc, hb, hr]
          omega
        · have hr := ihn (d :: r) (by simp only [List.length_cons] at h ⊢; omega)
            (c :: cur)
          simp [splitlinesGo, splitCount, hc, hb, hr]

theorem pySplitlines_length (l : List Char) :
    (pySplitlines l).length = if l = [] then 0 else splitCount l := by
  cases l with
  | nil => rfl
  | cons c r =>
    have := splitlinesGo_length (c :: r).length (c :: r) (Nat.le_refl _) []
    simp [pySplitlines, this]

theorem univNewlines_ne_nil {l : List Char} (h : l ≠ []) :
    univNewlines l ≠ [] := by
  match l with
  | [] => exact absurd rfl h
  | [c] =>
    by_cases hc : c = '\r' <;> simp [univNewlines, hc]
  | c :: d :: r =>
    by_cases hc : c = '\r' <;> by_cases hd : d = '\n' <;>
      simp [univNewlines, hc, hd]

/-- Every newline of the normalised text comes from a `splitlines`
boundary of the raw text, and a trailing unterminated line is counted
by `splitlines` as well. -/
theorem univ_lines_le :
    ∀ (n : Nat) (o : List Char), o.length ≤ n →
      nlCount (univNewlines o) + endBonus (univNewlines o) ≤
        (pySplitlines o).length := by
  intro n
  induction n with
  | zero =>
    intro o h
    have : o = [] := List.length_eq_zero.mp (Nat.le_zero.mp h)
    subst this
    simp [univNewlines, nlCount, endBonus, pySplitlines]
  | succ n ihn =>
    intro o h
    match o with
    | [] => simp [univNewlines, nlCount, endBonus, pySplitlines]
    | [c] =>
      rw [pySplitlines_length]
      by_cases hc : c = '\r'
      · subst hc
        simp [univNewlines, nlCount, endBonus, splitCount]
      · by_cases hcn : c = '\n'
        · subst hcn
          simp [univNewlines, nlCount, endBonus, splitCount]
        · simp [univNewlines, nlCount, endBonus, splitCount, hc, hcn,
            List.count_cons, List.count_nil]
    | c :: d :: r =>
      simp only [List.length_cons] at h
      rw [pySplitlines_length,
        if_neg (show (c :: d :: r : List Char) ≠ [] by simp)]
      by_cases hc : c = '\r'
      · by_cases hd : d = '\n'
        · subst hc
          subst hd
          cases r with
          | nil =>
            simp [univNewlines, nlCount, endBonus, splitCount]
          | cons e r2 =>
            have IH := ihn (e :: r2) (by simp only [List.length_cons] at h ⊢; omega)
            rw [pySplitlines_length,
              if_neg (show (e :: r2 : List Char) ≠ [] by simp)] at IH
            have hnn := univNewlines_ne_nil
              (show (e :: r2 : List Char) ≠ [] by simp)
            rw [show univNewlines ('\r' :: '\n' :: e :: r2) =
              '\n' :: univNewlines (e :: r2) by simp [univNewlines]]
            rw [endBonus_cons, if_neg hnn]
            have hcnt : nlCount ('\n' :: univNewlines (e :: r2)) =
                nlCount (univNewlines (e :: r2)) + 1 := by
              simp [nlCount, List.count_cons]
            rw [hcnt, show splitCount ('\r' :: '\n' :: e :: r2) =
              1 + splitCount (e :: r2) by simp [splitCount]]
            omega
        · subst hc
          have IH := ihn (d :: r) (by simp only [List.length_cons] at h ⊢; omega)
          rw [pySplitlines_length,
            if_neg (show (d :: r : List Char) ≠ [] by simp)] at IH
          have hnn := univNewlines_ne_nil (show (d :: r : List Char) ≠ [] by simp)
          rw [show univNewlines ('\r' :: d :: r) =
            '\n' :: univNewlines (d :: r) by simp [univNewlines, hd]]
          rw [endBonus_cons, if_neg hnn]
          have hcnt : nlCount ('\n' :: univNewlines (d :: r)) =
              nlCount (univNewlines (d :: r)) + 1 := by
            simp [nlCount, List.count_cons]
          rw [hcnt]
          rw [show splitCount ('\r' :: d :: r) = 1 + splitCount (d :: r) by
            simp [splitCount, hd, isLineBoundary]]
          omega
      · have IH := ihn (d :: r) (by simp only [List.length_cons] at h ⊢; omega)
        rw [pySplitlines_length,
          if_neg (show (d :: r : List Char) ≠ [] by simp)] at IH
        have hnn := univNewlines_ne_nil (show (d :: r : List Char) ≠ [] by simp)
        rw [show univNewlines (c :: d :: r) =
          c :: univNewlines (d :: r) by simp [univNewlines, hc]]
        rw [endBonus_cons, if_neg hnn]
        have hcnt : nlCount (c :: univNewlines (d :: r)) =
            nlCount (univNewlines (d :: r)) + (if c = '\n' then 1 else 0) := by
          simp [nlCount, List.count_cons]
        rw [hcnt]
        by_cases hb : isLineBoundary c
        · rw [show splitCount (c :: d :: r) = 1 + splitCount (d :: r) by
            simp [splitCount, hc, hb]]
          by_cases hcn : c = '\n' <;> simp [hcn] <;> omega
        · have hcn : ¬ c = '\n' := by
            intro hcon
            subst hcon
            simp [isLineBoundary] at hb
          rw [show splitCount (c :: d :: r) = splitCount (d :: r) by
            simp [splitCount, hc, hb]]
          simp [hcn]
          omega

/-- The dispatcher cannot parse more records out of the stored file
than the line count `create_campaign` stored as `recipient_count`. -/
theorem parseRows_length_le (content : String) :
    (parseRows content).length ≤ intakeRecipientCount content := by
  unfold parseRows intakeRecipientCount
  calc (csvReader (univNewlines content.data)).length
      ≤ nlCount (univNewlines content.data) +
        endBonus (univNewlines content.data) := csvReader_length_le _
    _ ≤ (pySplitlines content.data).length :=
        univ_lines_le content.data.length content.data (Nat.le_refl _)

/-! Structure of `splitFirst` and friends, towards the cleaning
properties -/

theorem splitFirst_eq :
    ∀ {l : List Char} {pat b a : List Char},
      splitFirst pat l = some (b, a) → l = b ++ pat ++ a := by
  intro l
  induction l with
  | nil =>
    intro pat b a h
    rw [splitFirst] at h
    by_cases hp : pat = ([] : List Char)
    · rw [if_pos hp] at h
      simp at h
      obtain ⟨hb, ha⟩ := h
      subst hp
      subst hb
      subst ha
      rfl
    · rw [if_neg hp] at h
      exact absurd h (by simp)
  | cons c rest ih =>
    intro pat b a h
    rw [splitFirst] at h
    by_cases hp : pat.isPrefixOf (c :: rest) = true
    · rw [if_pos hp] at h
      simp at h
      obtain ⟨hb, ha⟩ := h
      have hpre : pat <+: (c :: rest) := List.isPrefixOf_iff_prefix.mp hp
      obtain ⟨t, ht⟩ := hpre
      have hdrop : List.drop pat.length (c :: rest) = t := by
        rw [← ht]
        exact List.drop_left _ _
      subst hb
      rw [hdrop] at ha
      subst ha
      simpa using ht.symm
    · rw [if_neg hp] at h
      cases hsp : splitFirst pat rest with
      | none => rw [hsp] at h; exact absurd h (by simp)
      | some pr =>
        obtain ⟨b2, a2⟩ := pr
        rw [hsp] at h
        simp at h
        obtain ⟨hb, ha⟩ := h
        subst hb
        subst ha
        have hr := ih hsp
        simp [hr]

theorem splitFirst_before_not_occur :
    ∀ {l : List Char} {pat b a : List Char}, pat ≠ [] →
      splitFirst pat l = some (b, a) → ∀ x y, b ≠ x ++ pat ++ y := by
  intro l
  induction l with
  | nil =>
    intro pat b a hne h
    rw [splitFirst, if_neg hne] at h
    exact absurd h (by simp)
  | cons c rest ih =>
    intro pat b a hne h x y hcon
    rw [splitFirst] at h
    by_cases hp : pat.isPrefixOf (c :: rest) = true
    · rw [if_pos hp] at h
      simp at h
      obtain ⟨hb, _⟩ := h
      subst hb
      have hlen := congrArg List.length hcon
      have hpos : 0 < pat.length := List.length_pos.mpr hne
      simp at hlen
      omega
    · rw [if_neg hp] at h
      cases hsp : splitFirst pat rest with
      | none => rw [hsp] at h; exact absurd h (by simp)
      | some pr =>
        obtain ⟨b2, a2⟩ := pr
        rw [hsp] at h
        simp at h
        obtain ⟨hb, _⟩ := h
        subst hb
        cases x with
        | nil =>
          simp at hcon
          have hpre : pat <+: (c :: rest) := by
            have hr := splitFirst_eq hsp
            refine ⟨y ++ pat ++ a2, ?_⟩
            calc pat ++ (y ++ pat ++ a2) = (pat ++ y) ++ pat ++ a2 := by simp
              _ = (c :: b2) ++ pat ++ a2 := by rw [← hcon]
              _ = c :: rest := by rw [hr]; simp
          exact hp (List.isPrefixOf_iff_prefix.mpr hpre)
        | cons x0 x2 =>
          simp at hcon
          obtain ⟨_, hcon2⟩ := hcon
          exact ih hne hsp x2 y (by rw [List.append_assoc]; exact hcon2)

theorem splitFirst_none_not_occur :
    ∀ {l : List Char} {pat : List Char}, pat ≠ [] →
      splitFirst pat l = none → ∀ x y, l ≠ x ++ pat ++ y := by
  intro l
  induction l with
  | nil =>
    intro pat hne _ x y hcon
    have hlen := congrArg List.length hcon
    have hpos : 0 < pat.length := List.length_pos.mpr hne
    simp at hlen
    omega
  | cons c rest ih =>
    intro pat hne h x y hcon
    rw [splitFirst] at h
    by_cases hp : pat.isPrefixOf (c :: rest) = true
    · rw [if_pos hp] at h
      exact absurd h (by simp)
    · rw [if_neg hp] at h
      cases hsp : splitFirst pat rest with
      | none =>
        cases x with
        | nil =>
          simp at hcon
          exact hp (List.isPrefixOf_iff_prefix.mpr ⟨y, hcon.symm⟩)
        | cons x0 x2 =>
          simp at hcon
          obtain ⟨_, hcon2⟩ := hcon
          exact ih hne hsp x2 y (by rw [List.append_assoc]; exact hcon2)
      | some pr => rw [hsp] at h; exact absurd h (by simp)

theorem splitIndex1_within {pat l m : List Char}
    (h : splitIndex1 pat l = some m) : m <:+: l := by
  rw [splitIndex1] at h
  cases hsp : splitFirst pat l with
  | none => rw [hsp] at h; exact absurd h (by simp)
  | some pr =>
    obtain ⟨b1, r1⟩ := pr
    rw [hsp] at h
    simp at h
    have hr1 : r1 <:+: l := by
      have he := splitFirst_eq hsp
      exact ⟨b1 ++ pat, [], by simp [he]⟩
    cases hsp2 : splitFirst pat r1 with
    | none =>
      rw [hsp2] at h
      subst h
      exact hr1
    | some pr2 =>
      obtain ⟨b2, a2⟩ := pr2
      rw [hsp2] at h
      subst h
      show b2 <:+: l
      have he2 := splitFirst_eq hsp2
      have hb2 : b2 <:+: r1 := ⟨[], pat ++ a2, by rw [he2]; simp⟩
      exact hb2.trans hr1

theorem splitIndex1_not_occur {pat l m : List Char} (hne : pat ≠ [])
    (h : splitIndex1 pat l = some m) : ∀ x y, m ≠ x ++ pat ++ y := by
  rw [splitIndex1] at h
  cases hsp : splitFirst pat l with
  | none => rw [hsp] at h; exact absurd h (by simp)
  | some pr =>
    obtain ⟨b1, r1⟩ := pr
    rw [hsp] at h
    simp at h
    cases hsp2 : splitFirst pat r1 with
    | none =>
      rw [hsp2] at h
      subst h
      exact splitFirst_none_not_occur hne hsp2
    | some pr2 =>
      obtain ⟨b2, a2⟩ := pr2
      rw [hsp2] at h
      subst h
      exact splitFirst_before_not_occur hne hsp2

theorem splitIndex1_some_occur {pat l m : List Char}
    (h : splitIndex1 pat l = some m) : ∃ x y, l = x ++ pat ++ y := by
  rw [splitIndex1] at h
  cases hsp : splitFirst pat l with
  | none => rw [hsp] at h; exact absurd h (by simp)
  | some pr =>
    obtain ⟨b1, r1⟩ := pr
    exact ⟨b1, r1, splitFirst_eq hsp⟩

theorem splitIndex0_within (pat l : List Char) : splitIndex0 pat l <:+: l := by
  rw [splitIndex0]
  cases hsp : splitFirst pat l with
  | none => exact ⟨[], [], by simp⟩
  | some pr =>
    obtain ⟨b, a⟩ := pr
    have he := splitFirst_eq hsp
    exact ⟨[], pat ++ a, by simp [he]⟩

theorem pyStrip_within (l : List Char) : pyStrip l <:+: l := by
  unfold pyStrip
  have h1 : List.rdropWhile isPySpace (List.dropWhile isPySpace l) <+:
      List.dropWhile isPySpace l := List.rdropWhile_prefix _ _
  have h2 : List.dropWhile isPySpace l <:+ l := List.dropWhile_suffix _
  exact h1.isInfix.trans h2.isInfix

theorem ansiStripF_of_noEsc :
    ∀ (n : Nat) (l : List Char), l.length ≤ n → escChar ∉ l →
      ansiStripF n l = l := by
  intro n
  induction n with
  | zero =>
    intro l h _
    have : l = [] := List.length_eq_zero.mp (Nat.le_zero.mp h)
    subst this
    rfl
  | succ n ihn =>
    intro l h hesc
    cases l with
    | nil => rfl
    | cons c rest =>
      have hc : ¬ c = escChar := by
        intro hcon
        exact hesc (by simp [hcon])
      simp only [List.length_cons] at h
      simp only [ansiStripF, if_neg hc]
      rw [ihn rest (by omega) (fun hm => hesc (by simp [hm]))]

theorem ansiStrip_of_noEsc {l : List Char} (h : escChar ∉ l) :
    ansiStrip l = l :=
  ansiStripF_of_noEsc l.length l (Nat.le_refl _) h

/-! Claim theorems -/

/-- C1: for both schedule modes and all counter values the terminal
status computed at the end of `process_campaign_task` is exactly the
status the nine-row table of the specification assigns to
`(schedule_mode, success_count, error_count)`. -/
theorem c1_terminal_status_table :
    ∀ success_count error_count : Nat,
      specTerminalStatus "now" success_count error_count =
        some (terminal_status "now" success_count error_count) ∧
      specTerminalStatus "later" success_count error_count =
        some (terminal_status "later" success_count error_count) := by
  intro s e
  have hne : ¬ (("later" : String) = "now") := by decide
  constructor
  · rcases e with _ | e <;> simp [terminal_status, specTerminalStatus]
  · rcases s with _ | s <;> rcases e with _ | e <;>
      simp [terminal_status, specTerminalStatus, hne]

/-- C10: a dispatch invocation whose campaign id matches no stored
campaign returns without raising, changes neither the campaign store
nor the error store, attempts no send, and leaves the temporary file
untouched on disk. -/
theorem c10_unknown_campaign_noop (db0 : Db) (fs0 : String → Option String)
    (env : Nat → TwilioResult) (cfg : TwilioCfg) (cid : Nat)
    (path sid mode : String) (sat : Option String)
    (hdb : db0.getCampaign cid = none) :
    (process_campaign_task db0 fs0 env cfg cid path sid mode sat).trace = [] ∧
    (process_campaign_task db0 fs0 env cfg cid path sid mode sat).raised = false ∧
    (process_campaign_task db0 fs0 env cfg cid path sid mode sat).db = db0 ∧
    (process_campaign_task db0 fs0 env cfg cid path sid mode sat).fs = fs0 ∧
    (process_campaign_task db0 fs0 env cfg cid path sid mode sat).fs path =
      fs0 path := by
  rw [task_not_found env cfg path sid mode sat hdb]
  exact ⟨rfl, rfl, rfl, rfl, rfl⟩

/-- Witness for C10 at a concrete store without campaign 2. -/
theorem c10_witness :
    (process_campaign_task wDb wFs wEnv wCfg 2 wPath "HX1" "now" none).trace = [] ∧
    (process_campaign_task wDb wFs wEnv wCfg 2 wPath "HX1" "now" none).raised = false ∧
    (process_campaign_task wDb wFs wEnv wCfg 2 wPath "HX1" "now" none).db = wDb ∧
    (process_campaign_task wDb wFs wEnv wCfg 2 wPath "HX1" "now" none).fs = wFs ∧
    (process_campaign_task wDb wFs wEnv wCfg 2 wPath "HX1" "now" none).fs wPath =
      wFs wPath :=
  c10_unknown_campaign_noop wDb wFs wEnv wCfg 2 wPath "HX1" "now" none (by decide)

/-- C3 counterexample: with the stored campaign present but the
recipient file missing, the run raises and the campaign is left in the
`Procesando` (Processing) state — no distinct internal-error status is
ever set, contradicting the claim. -/
theorem c3_missing_file_counterexample :
    ((process_campaign_task wDb wFsNone wEnv wCfg 1 wPath "HX1" "now"
        none).db.getCampaign 1).map CampaignRow.status = some "Procesando" ∧
    (process_campaign_task wDb wFsNone wEnv wCfg 1 wPath "HX1" "now"
        none).raised = true := by
  constructor <;> decide

/-- C3 (amended): if the recipient file is missing when the task runs,
the run aborts by raising an uncaught exception before any send is
attempted, records no counts and no error rows, leaves the filesystem
untouched — but the campaign stays in the `Procesando` state rather
than being marked with a distinct internal-error status. -/
theorem c3_missing_file_amended (db0 : Db) (fs0 : String → Option String)
    (env : Nat → TwilioResult) (cfg : TwilioCfg) (cid : Nat)
    (path sid mode : String) (sat : Option String) (row0 : CampaignRow)
    (hdb : db0.getCampaign cid = some row0) (hfs : fs0 path = none) :
    (process_campaign_task db0 fs0 env cfg cid path sid mode sat).raised = true ∧
    (∀ e ∈ (process_campaign_task db0 fs0 env cfg cid path sid mode sat).trace,
      isSendEvent e = false) ∧
    (process_campaign_task db0 fs0 env cfg cid path sid mode sat).db.getCampaign
      cid = some { row0 with status := "Procesando" } ∧
    (process_campaign_task db0 fs0 env cfg cid path sid mode sat).db.errors =
      db0.errors ∧
    (process_campaign_task db0 fs0 env cfg cid path sid mode sat).fs = fs0 := by
  rw [task_missing_file env cfg sid mode sat hdb hfs]
  have hid : (procRow row0).id = cid := by
    simpa [procRow] using getCampaign_id hdb
  refine ⟨rfl, ?_, ?_, ?_, rfl⟩
  · intro e he
    simp at he
    subst he
    rfl
  · exact getCampaign_commit hdb hid []
  · show (applyEvent db0 (Event.commit (procRow row0) [])).errors = db0.errors
    rw [errors_commit]
    exact List.append_nil _

/-- Witness for the amended C3 at a concrete store and empty
filesystem. -/
theorem c3_missing_file_witness :
    (process_campaign_task wDb wFsNone wEnv wCfg 1 wPath "HX1" "now"
      none).raised = true ∧
    (∀ e ∈ (process_campaign_task wDb wFsNone wEnv wCfg 1 wPath "HX1" "now"
      none).trace, isSendEvent e = false) ∧
    (process_campaign_task wDb wFsNone wEnv wCfg 1 wPath "HX1" "now"
      none).db.getCampaign 1 = some { wRow with status := "Procesando" } ∧
    (process_campaign_task wDb wFsNone wEnv wCfg 1 wPath "HX1" "now"
      none).db.errors = wDb.errors ∧
    (process_campaign_task wDb wFsNone wEnv wCfg 1 wPath "HX1" "now"
      none).fs = wFsNone :=
  c3_missing_file_amended wDb wFsNone wEnv wCfg 1 wPath "HX1" "now" none wRow
    (by decide) rfl

/-- C5: whenever a run reads the recipient file, the file is removed
immediately after the read and before any send attempt (the trace
starts with the `Procesando` commit, the read, then the removal, and
every other event comes after), and once the run completes the file no
longer exists on disk. -/
theorem c5_temp_file_deleted (db0 : Db) (fs0 : String → Option String)
    (env : Nat → TwilioResult) (cfg : TwilioCfg) (cid : Nat)
    (path sid mode : String) (sat : Option String) (row0 : CampaignRow)
    (content : String) (hdb : db0.getCampaign cid = some row0)
    (hfs : fs0 path = some content) :
    ∃ post,
      (process_campaign_task db0 fs0 env cfg cid path sid mode sat).trace =
        Event.commit (procRow row0) [] :: Event.fileOpen content ::
          Event.fileRemove path :: post ∧
      (process_campaign_task db0 fs0 env cfg cid path sid mode sat).fs path =
        none ∧
      (process_campaign_task db0 fs0 env cfg cid path sid mode sat).raised =
        false := by
  rw [task_found_file env cfg sid mode sat hdb hfs]
  exact ⟨_, rfl, by simp, rfl⟩

/-- Witness for C5 at a concrete store and file. -/
theorem c5_witness :
    ∃ post,
      (process_campaign_task wDb wFs wEnv wCfg 1 wPath "HX1" "now" none).trace =
        Event.commit (procRow wRow) [] :: Event.fileOpen wContent ::
          Event.fileRemove wPath :: post ∧
      (process_campaign_task wDb wFs wEnv wCfg 1 wPath "HX1" "now" none).fs
        wPath = none ∧
      (process_campaign_task wDb wFs wEnv wCfg 1 wPath "HX1" "now" none).raised =
        false :=
  c5_temp_file_deleted wDb wFs wEnv wCfg 1 wPath "HX1" "now" none wRow wContent
    (by decide) (by decide)

/-- C2: after a run over a readable file, the persisted
`success_count + error_count` equals the number of parsed rows with at
least two fields whose first two fields are both non-empty; exactly
that many send attempts appear in the trace, and the error rows added
during the run number exactly `error_count` (so skipped rows
contribute to no counter, no send, and no `CampaignError` row). -/
theorem c2_counts_equal_valid_rows (db0 : Db) (fs0 : String → Option String)
    (env : Nat → TwilioResult) (cfg : TwilioCfg) (cid : Nat)
    (path sid mode : String) (sat : Option String) (row0 : CampaignRow)
    (content : String) (hdb : db0.getCampaign cid = some row0)
    (hfs : fs0 path = some content) :
    ∃ finalRow : CampaignRow,
      (process_campaign_task db0 fs0 env cfg cid path sid mode
          sat).db.getCampaign cid = some finalRow ∧
      finalRow.success_count + finalRow.error_count =
        ((parseRows content).filter validRow).length ∧
      (sendReqsOf (process_campaign_task db0 fs0 env cfg cid path sid mode
          sat).trace).length =
        ((parseRows content).filter validRow).length ∧
      ∃ newErrors : List ErrorRow,
        (process_campaign_task db0 fs0 env cfg cid path sid mode
            sat).db.errors = db0.errors ++ newErrors ∧
        newErrors.length = finalRow.error_count := by
  rw [task_found_file env cfg sid mode sat hdb hfs]
  obtain ⟨hA, hB⟩ := dispatch_db_final env cfg path sid mode sat content hdb
  refine ⟨_, hA, ?_, ?_, _, hB, ?_⟩
  · show (dispatchPhase env cfg cid sid mode sat content).success_count +
      (dispatchPhase env cfg cid sid mode sat content).error_count = _
    unfold dispatchPhase
    rw [runSends_counts env cid (mkSendReq cfg sid mode sat)
      (parseRecipients content) 0]
    exact parseRecipients_length content
  · show (sendReqsOf
      (dispatchTrace env cfg cid path sid mode sat row0 content)).length = _
    rw [sendReqsOf_dispatchTrace, List.length_map]
    exact parseRecipients_length content
  · show (dispatchPhase env cfg cid sid mode sat content).pendingErrors.length =
      (finalCampaignRow row0 mode
        (dispatchPhase env cfg cid sid mode sat content)).error_count
    unfold dispatchPhase finalCampaignRow
    exact runSends_errors_length env cid (mkSendReq cfg sid mode sat)
      (parseRecipients content) 0

/-- Witness for C2: one valid and one malformed row, every send
accepted. -/
theorem c2_witness :
    ∃ finalRow : CampaignRow,
      (process_campaign_task wDb wFs wEnv wCfg 1 wPath "HX1" "now"
          none).db.getCampaign 1 = some finalRow ∧
      finalRow.success_count + finalRow.error_count =
        ((parseRows wContent).filter validRow).length ∧
      (sendReqsOf (process_campaign_task wDb wFs wEnv wCfg 1 wPath "HX1" "now"
          none).trace).length =
        ((parseRows wContent).filter validRow).length ∧
      ∃ newErrors : List ErrorRow,
        (process_campaign_task wDb wFs wEnv wCfg 1 wPath "HX1" "now"
            none).db.errors = wDb.errors ++ newErrors ∧
        newErrors.length = finalRow.error_count :=
  c2_counts_equal_valid_rows wDb wFs wEnv wCfg 1 wPath "HX1" "now" none wRow
    wContent (by decide) (by decide)

/-- C4: the send attempts of a run are exactly one per parsed
recipient, in stored-file order, regardless of which attempts the
provider rejects (so one failure never suppresses later attempts);
each request carries the destination phone, the injected display-name
variable, the template identifier, and, when provider-side scheduling
is active, the scheduled send time. -/
theorem c4_send_per_recipient (db0 : Db) (fs0 : String → Option String)
    (env : Nat → TwilioResult) (cfg : TwilioCfg) (cid : Nat)
    (path sid mode : String) (sat : Option String) (row0 : CampaignRow)
    (content : String) (hdb : db0.getCampaign cid = some row0)
    (hfs : fs0 path = some content) :
    sendReqsOf (process_campaign_task db0 fs0 env cfg cid path sid mode
        sat).trace =
      (parseRecipients content).map (mkSendReq cfg sid mode sat) ∧
    ∀ r : Recipient,
      (mkSendReq cfg sid mode sat r).to_ = r.phone ∧
      (mkSendReq cfg sid mode sat r).contentVar1 = r.name ∧
      (mkSendReq cfg sid mode sat r).content_sid = sid ∧
      (laterScheduling mode sat = true →
        (mkSendReq cfg sid mode sat r).schedule_type = some "fixed" ∧
        (mkSendReq cfg sid mode sat r).send_at =
          some (pyReplaceZ (sat.getD ""))) := by
  rw [task_found_file env cfg sid mode sat hdb hfs]
  constructor
  · exact sendReqsOf_dispatchTrace env cfg cid path sid mode sat row0 content
  · intro r
    refine ⟨rfl, rfl, rfl, ?_⟩
    intro hlater
    constructor
    · show (if laterScheduling mode sat then some "fixed" else none) =
        some "fixed"
      rw [if_pos hlater]
    · show (if laterScheduling mode sat then some (pyReplaceZ (sat.getD ""))
        else none) = some (pyReplaceZ (sat.getD ""))
      rw [if_pos hlater]

/-- Witness for C4 with provider-side scheduling active and a provider
that rejects every send. -/
theorem c4_witness :
    sendReqsOf (process_campaign_task wDb wFs wEnvFail wCfg 1 wPath "HX1"
        "later" (some "2030-01-01T10:00:00Z")).trace =
      (parseRecipients wContent).map
        (mkSendReq wCfg "HX1" "later" (some "2030-01-01T10:00:00Z")) ∧
    ∀ r : Recipient,
      (mkSendReq wCfg "HX1" "later" (some "2030-01-01T10:00:00Z") r).to_ =
        r.phone ∧
      (mkSendReq wCfg "HX1" "later" (some "2030-01-01T10:00:00Z")
          r).contentVar1 = r.name ∧
      (mkSendReq wCfg "HX1" "later" (some "2030-01-01T10:00:00Z")
          r).content_sid = "HX1" ∧
      (laterScheduling "later" (some "2030-01-01T10:00:00Z") = true →
        (mkSendReq wCfg "HX1" "later" (some "2030-01-01T10:00:00Z")
            r).schedule_type = some "fixed" ∧
        (mkSendReq wCfg "HX1" "later" (some "2030-01-01T10:00:00Z")
            r).send_at =
          some (pyReplaceZ ((some "2030-01-01T10:00:00Z").getD ""))) :=
  c4_send_per_recipient wDb wFs wEnvFail wCfg 1 wPath "HX1" "later"
    (some "2030-01-01T10:00:00Z") wRow wContent (by decide) (by decide)

/-- C9: when the task starts for an existing campaign, its very first
observable action is the commit that sets the status to `Procesando`
— it precedes the file read and every send attempt — and every
nonempty prefix of the run leaves the campaign readable with a status
other than the pre-dispatch `En Cola` (Queued). -/
theorem c9_processing_first (db0 : Db) (fs0 : String → Option String)
    (env : Nat → TwilioResult) (cfg : TwilioCfg) (cid : Nat)
    (path sid mode : String) (sat : Option String) (row0 : CampaignRow)
    (hdb : db0.getCampaign cid = some row0) :
    (process_campaign_task db0 fs0 env cfg cid path sid mode
        sat).trace.head? = some (Event.commit (procRow row0) []) ∧
    ∀ p, p <+: (process_campaign_task db0 fs0 env cfg cid path sid mode
        sat).trace → p ≠ [] →
      ∃ row1 : CampaignRow,
        (applyEvents db0 p).getCampaign cid = some row1 ∧
        row1.status ≠ "En Cola" := by
  have hid := getCampaign_id hdb
  have hidp : (procRow row0).id = cid := by simpa [procRow] using hid
  cases hfs : fs0 path with
  | none =>
    rw [task_missing_file env cfg sid mode sat hdb hfs]
    refine ⟨rfl, ?_⟩
    intro p hp hne
    rcases prefix_cons_cases hp with rfl | ⟨q, rfl, hq⟩
    · exact absurd rfl hne
    · have hqe : q = [] := List.prefix_nil.mp hq
      subst hqe
      rw [applyEvents_cons]
      refine ⟨procRow row0, getCampaign_commit hdb hidp [], ?_⟩
      have h1 : (procRow row0).status = "Procesando" := rfl
      rw [h1]
      decide
  | some content =>
    rw [task_found_file env cfg sid mode sat hdb hfs]
    refine ⟨rfl, ?_⟩
    intro p hp hne
    rcases dispatch_prefix_view env cfg path sid mode sat content hdb p hp with
      ⟨rfl, _⟩ | ⟨hg, _⟩ | ⟨hg, _⟩
    · exact absurd rfl hne
    · refine ⟨procRow row0, hg, ?_⟩
      have h1 : (procRow row0).status = "Procesando" := rfl
      rw [h1]
      decide
    · refine ⟨_, hg, ?_⟩
      have h1 : (finalCampaignRow row0 mode
          (dispatchPhase env cfg cid sid mode sat content)).status =
          terminal_status mode
            (dispatchPhase env cfg cid sid mode sat content).success_count
            (dispatchPhase env cfg cid sid mode sat content).error_count := rfl
      rw [h1]
      exact (terminal_status_ne mode _ _).1

/-- Witness for C9 at a concrete store and file. -/
theorem c9_witness :
    (process_campaign_task wDb wFs wEnv wCfg 1 wPath "HX1" "now"
        none).trace.head? = some (Event.commit (procRow wRow) []) ∧
    ∀ p, p <+: (process_campaign_task wDb wFs wEnv wCfg 1 wPath "HX1" "now"
        none).trace → p ≠ [] →
      ∃ row1 : CampaignRow,
        (applyEvents wDb p).getCampaign 1 = some row1 ∧
        row1.status ≠ "En Cola" :=
  c9_processing_first wDb wFs wEnv wCfg 1 wPath "HX1" "now" none wRow (by decide)

/-- C7: a completed run persists its counters, its terminal status and
all its error rows through one single atomic commit (no other commit
follows the `Procesando` one), so a reader that observes the terminal
status also observes the final counters and every error row recorded
during the run. -/
theorem c7_atomic_final_commit (db0 : Db) (fs0 : String → Option String)
    (env : Nat → TwilioResult) (cfg : TwilioCfg) (cid : Nat)
    (path sid mode : String) (sat : Option String) (row0 : CampaignRow)
    (content : String) (hdb : db0.getCampaign cid = some row0)
    (hfs : fs0 path = some content) (hst : row0.status = "En Cola") :
    (∃ pre : List Event,
      (process_campaign_task db0 fs0 env cfg cid path sid mode sat).trace =
        Event.commit (procRow row0) [] :: pre ++
          [Event.commit
            (finalCampaignRow row0 mode
              (dispatchPhase env cfg cid sid mode sat content))
            (dispatchPhase env cfg cid sid mode sat content).pendingErrors] ∧
      ∀ e ∈ pre, isCommitEvent e = false) ∧
    ∀ p, p <+: (process_campaign_task db0 fs0 env cfg cid path sid mode
        sat).trace →
      ∀ row1 : CampaignRow,
        (applyEvents db0 p).getCampaign cid = some row1 →
        row1.status = terminal_status mode
          (dispatchPhase env cfg cid sid mode sat content).success_count
          (dispatchPhase env cfg cid sid mode sat content).error_count →
        row1.success_count =
          (dispatchPhase env cfg cid sid mode sat content).success_count ∧
        row1.error_count =
          (dispatchPhase env cfg cid sid mode sat content).error_count ∧
        (applyEvents db0 p).errors =
          db0.errors ++
            (dispatchPhase env cfg cid sid mode sat content).pendingErrors := by
  rw [task_found_file env cfg sid mode sat hdb hfs]
  constructor
  · refine ⟨Event.fileOpen content :: Event.fileRemove path ::
      (dispatchPhase env cfg cid sid mode sat content).events, rfl, ?_⟩
    intro e he
    simp only [List.mem_cons] at he
    rcases he with rfl | rfl | he
    · rfl
    · rfl
    · exact dispatchPhase_events_noncommit env cfg cid sid mode sat content e he
  · intro p hp row1 hrow1 hstat
    rcases dispatch_prefix_view env cfg path sid mode sat content hdb p hp with
      ⟨rfl, _⟩ | ⟨hg, _⟩ | ⟨hg, he⟩
    · have h2 : db0.getCampaign cid = some row1 := hrow1
      rw [hdb] at h2
      injection h2 with h2
      subst h2
      rw [hst] at hstat
      exact absurd hstat.symm (terminal_status_ne mode _ _).1
    · rw [hg] at hrow1
      injection hrow1 with h2
      subst h2
      have h1 : (procRow row0).status = "Procesando" := rfl
      rw [h1] at hstat
      exact absurd hstat.symm (terminal_status_ne mode _ _).2
    · rw [hg] at hrow1
      injection hrow1 with h2
      subst h2
      exact ⟨rfl, rfl, he⟩

/-- Witness for C7 at a concrete store and file. -/
theorem c7_witness :
    (∃ pre : List Event,
      (process_campaign_task wDb wFs wEnv wCfg 1 wPath "HX1" "now" none).trace =
        Event.commit (procRow wRow) [] :: pre ++
          [Event.commit
            (finalCampaignRow wRow "now"
              (dispatchPhase wEnv wCfg 1 "HX1" "now" none wContent))
            (dispatchPhase wEnv wCfg 1 "HX1" "now" none wContent).pendingErrors] ∧
      ∀ e ∈ pre, isCommitEvent e = false) ∧
    ∀ p, p <+: (process_campaign_task wDb wFs wEnv wCfg 1 wPath "HX1" "now"
        none).trace →
      ∀ row1 : CampaignRow,
        (applyEvents wDb p).getCampaign 1 = some row1 →
        row1.status = terminal_status "now"
          (dispatchPhase wEnv wCfg 1 "HX1" "now" none wContent).success_count
          (dispatchPhase wEnv wCfg 1 "HX1" "now" none wContent).error_count →
        row1.success_count =
          (dispatchPhase wEnv wCfg 1 "HX1" "now" none wContent).success_count ∧
        row1.error_count =
          (dispatchPhase wEnv wCfg 1 "HX1" "now" none wContent).error_count ∧
        (applyEvents wDb p).errors =
          wDb.errors ++
            (dispatchPhase wEnv wCfg 1 "HX1" "now" none wContent).pendingErrors :=
  c7_atomic_final_commit wDb wFs wEnv wCfg 1 wPath "HX1" "now" none wRow
    wContent (by decide) (by decide) (by decide)

/-- C8: when the stored `recipient_count` is the `splitlines` line
count of the uploaded content — as `create_campaign` records it — the
counters a completed run persists satisfy
`success_count + error_count ≤ recipient_count`: the number of valid
parsed rows never exceeds the stored line count. -/
theorem c8_counts_le_recipient_count (db0 : Db) (fs0 : String → Option String)
    (env : Nat → TwilioResult) (cfg : TwilioCfg) (cid : Nat)
    (path sid mode : String) (sat : Option String) (row0 : CampaignRow)
    (content : String) (hdb : db0.getCampaign cid = some row0)
    (hfs : fs0 path = some content)
    (hrc : row0.recipient_count = intakeRecipientCount content) :
    ∃ finalRow : CampaignRow,
      (process_campaign_task db0 fs0 env cfg cid path sid mode
          sat).db.getCampaign cid = some finalRow ∧
      finalRow.success_count + finalRow.error_count ≤
        finalRow.recipient_count := by
  rw [task_found_file env cfg sid mode sat hdb hfs]
  obtain ⟨hA, _⟩ := dispatch_db_final env cfg path sid mode sat content hdb
  refine ⟨_, hA, ?_⟩
  show (dispatchPhase env cfg cid sid mode sat content).success_count +
      (dispatchPhase env cfg cid sid mode sat content).error_count ≤
    (finalCampaignRow row0 mode
      (dispatchPhase env cfg cid sid mode sat content)).recipient_count
  have hfr : (finalCampaignRow row0 mode
      (dispatchPhase env cfg cid sid mode sat content)).recipient_count =
      row0.recipient_count := rfl
  rw [hfr, hrc]
  unfold dispatchPhase
  rw [runSends_counts env cid (mkSendReq cfg sid mode sat)
    (parseRecipients content) 0]
  calc (parseRecipients content).length
      = ((parseRows content).filter validRow).length :=
        parseRecipients_length content
    _ ≤ (parseRows content).length := List.length_filter_le _ _
    _ ≤ intakeRecipientCount content := parseRows_length_le content

/-- Witness for C8: two uploaded lines, one valid row. -/
theorem c8_witness :
    ∃ finalRow : CampaignRow,
      (process_campaign_task wDb wFs wEnv wCfg 1 wPath "HX1" "now"
          none).db.getCampaign 1 = some finalRow ∧
      finalRow.success_count + finalRow.error_count ≤
        finalRow.recipient_count :=
  c8_counts_le_recipient_count wDb wFs wEnv wCfg 1 wPath "HX1" "now" none wRow
    wContent (by decide) (by decide) (by decide)

/-- C6 counterexample: cleaning is not idempotent on every string.  On
`ESC ESC [ m [ m` the first pass removes the inner `ESC [ m` match and
thereby glues the leading ESC to a fresh `[ m`, which only the second
pass removes. -/
theorem c6_clean_counterexample :
    clean_twilio_error (clean_twilio_error c6Input) ≠
      clean_twilio_error c6Input := by decide

/-- C6 (amended): the cleaner strips ANSI escape sequences and then
either extracts the trimmed fragment after the boilerplate marker and
before the more-information marker, or passes the stripped string
through unchanged; cleaning is idempotent on every string that
contains no ESC character (on strings with a stray ESC the single
substitution pass of `re.sub` can create a new match, as the recorded
counterexample shows). -/
theorem c6_clean_amended :
    (∀ s : String, escChar ∉ s.data →
      clean_twilio_error (clean_twilio_error s) = clean_twilio_error s) ∧
    (∀ s : String, splitIndex1 twilioMarker (ansiStrip s.data) = none →
      clean_twilio_error s = String.mk (ansiStrip s.data)) ∧
    (∀ s : String, ∀ m, splitIndex1 twilioMarker (ansiStrip s.data) = some m →
      clean_twilio_error s =
        String.mk (pyStrip (splitIndex0 moreInfoMarker m))) := by
  refine ⟨?_, ?_, ?_⟩
  · intro s hesc
    have hid : ansiStrip s.data = s.data := ansiStrip_of_noEsc hesc
    cases hsp : splitIndex1 twilioMarker (ansiStrip s.data) with
    | none =>
      have h1 : clean_twilio_error s = String.mk (ansiStrip s.data) := by
        simp [clean_twilio_error, hsp]
      have h2 : clean_twilio_error s = s := by rw [h1, hid]
      rw [h2]
      exact h2
    | some m =>
      have hout : clean_twilio_error s =
          String.mk (pyStrip (splitIndex0 moreInfoMarker m)) := by
        simp [clean_twilio_error, hsp]
      have hinf : pyStrip (splitIndex0 moreInfoMarker m) <:+: m :=
        (pyStrip_within _).trans (splitIndex0_within _ _)
      have hminf : m <:+: s.data := by
        have h3 := splitIndex1_within hsp
        rwa [hid] at h3
      have hesc_out : escChar ∉ pyStrip (splitIndex0 moreInfoMarker m) :=
        fun hmem => hesc (hminf.sublist.subset (hinf.sublist.subset hmem))
      have hsp' : splitIndex1 twilioMarker s.data = some m := by rwa [hid] at hsp
      have hnocc : ∀ x y, m ≠ x ++ twilioMarker ++ y :=
        splitIndex1_not_occur (by decide) hsp'
      have hid2 : ansiStrip (pyStrip (splitIndex0 moreInfoMarker m)) =
          pyStrip (splitIndex0 moreInfoMarker m) := ansiStrip_of_noEsc hesc_out
      have hnone : splitIndex1 twilioMarker
          (ansiStrip (pyStrip (splitIndex0 moreInfoMarker m))) = none := by
        rw [hid2]
        cases hsp2 : splitIndex1 twilioMarker
            (pyStrip (splitIndex0 moreInfoMarker m)) with
        | none => rfl
        | some m2 =>
          exfalso
          obtain ⟨x, y, hxy⟩ := splitIndex1_some_occur hsp2
          obtain ⟨u, v, huv⟩ := hinf
          refine hnocc (u ++ x) (y ++ v) ?_
          rw [← huv, hxy]
          simp
      rw [hout]
      have h4 : clean_twilio_error
          (String.mk (pyStrip (splitIndex0 moreInfoMarker m))) =
          String.mk (ansiStrip (pyStrip (splitIndex0 moreInfoMarker m))) := by
        simp [clean_twilio_error, hnone]
      rw [h4, hid2]
  · intro s h
    simp [clean_twilio_error, h]
  · intro s m h
    simp [clean_twilio_error, h]

/-- Witness for the amended C6 on an ESC-free provider error. -/
theorem c6_clean_witness :
    clean_twilio_error (clean_twilio_error "boom") = clean_twilio_error "boom" :=
  c6_clean_amended.1 "boom" (by decide)

end WhatsappSender
